import Mathlib

/-!
Shallow embedding of the FIVLO backend's "productivity ledger" core:
the daily-completion coin gate (`checkDailyTaskCompletion` in
src/services/taskService_old.js), task creation and completion
(`createTask`, `completeTask` in the same file), the coin-transaction
model (src/models/CoinTransaction_old.js), and the weekly best-day
selection (`getWeeklyStats` in the analysis service).

Conventions: each JS service method that may `throw` is modelled as a
function `State → (Except String Result) × State`; the state returned on
an error path is the input state, matching the fact that the JS code
throws before any persistence call on those paths.  Calendar days are
`Nat` (the code compares `toISOString().split('T')[0]` strings, i.e.
day-granularity equality); coin amounts are `Int`.
-/

namespace Fivlo

/-- One entry of `user.dailyRewards` (the reward ledger embedded in the
user document): a reason code, an amount, and the calendar day of the
grant. -/
structure DailyReward where
  rtype : String
  amount : Int
  day : Nat
  deriving Repr, DecidableEq

/-- The slice of the user document used by the gate: premium flag,
cached coin balance, and the reward ledger. -/
structure User where
  isPremium : Bool
  coins : Int
  dailyRewards : List DailyReward
  deriving Repr, DecidableEq

/-- A task instance as seen by the gate: its calendar day and
completion flag. -/
structure TaskI where
  day : Nat
  isCompleted : Bool
  deriving Repr, DecidableEq

/-- Result object returned by the gate on a mint
(`{rewarded, amount, totalCoins, message}` in the JS). -/
structure RewardResult where
  rewarded : Bool
  amount : Int
  totalCoins : Int
  message : String
  deriving Repr, DecidableEq

/-- Store state visible to `checkDailyTaskCompletion`: the (optional)
user document and the user's tasks. -/
structure GateState where
  user : Option User
  tasks : List TaskI
  deriving Repr, DecidableEq

/-- The `user.dailyRewards.some(...)` scan: is there already a reward of
type task_completion recorded for `today`? -/
def alreadyRewardedFor (u : User) (today : Nat) : Bool :=
  u.dailyRewards.any (fun r => r.day == today && r.rtype == "task_completion")

/-- The day filter of the gate's task query
(`date: {$gte: startOfDay, $lte: endOfDay}`). -/
def gateFilter (s : GateState) (today : Nat) : List TaskI :=
  s.tasks.filter (fun t => t.day == today)

/-- `TaskService.checkDailyTaskCompletion` from
src/services/taskService_old.js lines 528-599.  Looks up the user
(null or non-premium short-circuits to null), loads the day's tasks
(empty set short-circuits to null), checks `every(isCompleted)`, checks
the `dailyRewards` scan, and on a mint adds 1 coin, pushes a ledger
entry dated today, and returns the reward object with the new balance. -/
def checkDailyTaskCompletion (today : Nat) (s : GateState) :
    (Except String (Option RewardResult)) × GateState :=
  match s.user with
  | none => (.ok none, s)
  | some u =>
    if !u.isPremium then (.ok none, s)
    else
      let todayTasks := gateFilter s today
      if todayTasks.isEmpty then (.ok none, s)
      else
        let allCompleted := todayTasks.all (fun t => t.isCompleted)
        if allCompleted then
          if !(alreadyRewardedFor u today) then
            let rewardAmount : Int := 1
            let u2 : User :=
              { u with
                coins := u.coins + rewardAmount,
                dailyRewards :=
                  u.dailyRewards ++ [⟨"task_completion", rewardAmount, today⟩] }
            (.ok (some
              { rewarded := true
                amount := rewardAmount
                totalCoins := u2.coins
                message := "모든 할일을 완료하여 코인을 받았습니다!" }),
             { s with user := some u2 })
          else (.ok none, s)
        else (.ok none, s)

/-! ## Task creation (`TaskService.createTask`) -/

/-- The fields of `taskData` consumed by `createTask`. -/
structure TaskData where
  title : String
  categoryId : Nat
  day : Nat
  isRepeating : Bool
  repeatType : Option String
  repeatDays : List Nat
  repeatEndDate : Option Nat
  deriving Repr, DecidableEq

/-- A persisted Task document as assembled by `createTask`. -/
structure StoredTask where
  title : String
  categoryId : Nat
  day : Nat
  isRepeating : Bool
  repeatType : Option String
  repeatDays : List Nat
  repeatEndDate : Option Nat
  isCompleted : Bool
  deriving Repr, DecidableEq

/-- Store state visible to `createTask`: the user's category ids and
persisted tasks. -/
structure CreateState where
  categories : List Nat
  tasks : List StoredTask
  deriving Repr, DecidableEq

/-- `TaskService.createTask` from src/services/taskService_old.js lines
29-94.  Validates the category, builds the Task document (repeat fields
nulled when `isRepeating` is false; `repeatEndDate` kept only when
`isRepeating` and a value was supplied), saves it, and only when
`isRepeating && repeatEndDate` runs `task.createRepeatingTasks()` —
passed in here as `expand`, since that model method lives outside this
service.  No recurrence-rule validation is performed anywhere in the
function. -/
def createTask (expand : StoredTask → List StoredTask) (s : CreateState)
    (d : TaskData) : (Except String StoredTask) × CreateState :=
  if s.categories.contains d.categoryId then
    let task : StoredTask :=
      { title := d.title
        categoryId := d.categoryId
        day := d.day
        isRepeating := d.isRepeating
        repeatType := if d.isRepeating then d.repeatType else none
        repeatDays := if d.isRepeating then d.repeatDays else []
        repeatEndDate :=
          if d.isRepeating && d.repeatEndDate.isSome then d.repeatEndDate
          else none
        isCompleted := false }
    let s1 : CreateState := { s with tasks := s.tasks ++ [task] }
    let s2 : CreateState :=
      if d.isRepeating && d.repeatEndDate.isSome then
        { s1 with tasks := s1.tasks ++ expand task }
      else s1
    (.ok task, s2)
  else (.error "유효하지 않은 카테고리입니다.", s)

/-! ## Task completion (`TaskService.completeTask`) -/

/-- A task as seen by `completeTask`: id, owner, completion flag, and
the growth-album flag. -/
structure CTask where
  id : Nat
  userId : Nat
  isCompleted : Bool
  hasGrowthAlbum : Bool
  deriving Repr, DecidableEq

/-- The growth-album payload optionally supplied with a completion. -/
structure AlbumData where
  imageUrl : String
  memo : String
  deriving Repr, DecidableEq

/-- A persisted GrowthAlbum record. -/
structure Album where
  userId : Nat
  taskId : Nat
  imageUrl : String
  memo : String
  deriving Repr, DecidableEq

/-- Store state visible to `completeTask`. -/
structure CompleteState where
  tasks : List CTask
  albums : List Album
  deriving Repr, DecidableEq

/-- Modelled from the spec: `task.complete(actualMinutes)` is a Task
model method not present in the sources; per the spec, completion
toggles set the completion flag on the instance. -/
def CTask.complete (t : CTask) : CTask :=
  { t with isCompleted := true }

/-- `TaskService.completeTask` from src/services/taskService_old.js
lines 99-152.  Finds the task by (id, user) — error if absent; errors
with "이미 완료된 Task입니다." when the task is already completed (before
any mutation); otherwise marks it complete and, when the task has the
growth-album flag and image data was supplied, saves a GrowthAlbum
record. -/
def completeTask (s : CompleteState) (userId taskId : Nat)
    (growthAlbumData : Option AlbumData) :
    (Except String (CTask × Option Album)) × CompleteState :=
  match s.tasks.find? (fun t => t.id == taskId && t.userId == userId) with
  | none => (.error "Task를 찾을 수 없습니다.", s)
  | some task =>
    if task.isCompleted then (.error "이미 완료된 Task입니다.", s)
    else
      let task2 := task.complete
      let s1 : CompleteState :=
        { s with
          tasks := s.tasks.map
            (fun t => if t.id == taskId && t.userId == userId then task2 else t) }
      match growthAlbumData with
      | some ad =>
        if task.hasGrowthAlbum then
          let album : Album :=
            { userId := userId, taskId := taskId
              imageUrl := ad.imageUrl, memo := ad.memo }
          (.ok (task2, some album), { s1 with albums := s1.albums ++ [album] })
        else (.ok (task2, none), s1)
      | none => (.ok (task2, none), s1)

/-! ## Coin transactions (src/models/CoinTransaction_old.js) -/

/-- A CoinTransaction document: signed amount, balance after the
transaction, status, and description. -/
structure CoinTransaction where
  amount : Int
  balanceAfter : Int
  status : String
  description : String
  deriving Repr, DecidableEq

/-- The `pre('save')` middleware of the coin-transaction schema (lines
262-276): rejects a save whose `balanceAfter` is negative with the
INSUFFICIENT_BALANCE error, and rejects a zero `amount`. -/
def coinTransactionPreSave (t : CoinTransaction) : Except String Unit :=
  if t.balanceAfter < 0 then .error "잔액이 부족합니다."
  else if t.amount = 0 then .error "거래 금액이 0일 수 없습니다."
  else .ok ()

/-- Persisting a coin transaction: the pre-save middleware runs first;
only when it passes is the document appended to the store. -/
def saveCoinTransaction (store : List CoinTransaction)
    (t : CoinTransaction) : (Except String Unit) × List CoinTransaction :=
  match coinTransactionPreSave t with
  | .error e => (.error e, store)
  | .ok _ => (.ok (), store ++ [t])

/-- Instance method `cancel` (lines 240-249): throws unless the status
is 'pending'; otherwise marks the transaction cancelled, annotates the
description, and saves (the pre-save middleware still applies). -/
def CoinTransaction.cancel (t : CoinTransaction) (reason : String) :
    Except String CoinTransaction :=
  if t.status != "pending" then .error "완료된 거래는 취소할 수 없습니다."
  else
    let t2 : CoinTransaction :=
      { t with
        status := "cancelled"
        description := t.description ++ " (취소됨: " ++ reason ++ ")" }
    match coinTransactionPreSave t2 with
    | .error e => .error e
    | .ok _ => .ok t2

/-- Instance method `complete` (lines 252-259): throws unless the
status is 'pending'; otherwise marks the transaction completed and
saves. -/
def CoinTransaction.complete (t : CoinTransaction) :
    Except String CoinTransaction :=
  if t.status != "pending" then .error "이미 처리된 거래입니다."
  else
    let t2 : CoinTransaction := { t with status := "completed" }
    match coinTransactionPreSave t2 with
    | .error e => .error e
    | .ok _ => .ok t2

/-! ## Weekly best-day selection (analysis service `getWeeklyStats`) -/

/-- One bucket of `weeklyData`: a calendar day and its summed focus
minutes. -/
structure DayBucket where
  day : Nat
  minutes : Nat
  deriving Repr, DecidableEq

/-- The reducer of the `bestDay` computation:
`(best, current) => current.minutes > best.minutes ? current : best`. -/
def bestStep (best current : DayBucket) : DayBucket :=
  if current.minutes > best.minutes then current else best

/-- `bestDay` from `getWeeklyStats` (analysis service):
`weeklyData.reduce(bestStep, weeklyData[0])`.  JS `reduce` with an
explicit initial value folds over every element, index 0 included; on
an empty array with an undefined initial value the result is
undefined, modelled as `none`. -/
def bestDay : List DayBucket → Option DayBucket
  | [] => none
  | d :: ds => some ((d :: ds).foldl bestStep d)

/-! ## Theorems about the daily-completion gate -/

/-- C3: a day with zero due task instances yields null (no reward, no
error), no ledger entry, and an unchanged wallet. -/
theorem daily_gate_empty_day_not_applicable (today : Nat) (s : GateState)
    (h : gateFilter s today = []) :
    checkDailyTaskCompletion today s = (.ok none, s) := by
  unfold checkDailyTaskCompletion
  cases hu : s.user with
  | none => rfl
  | some u =>
    cases hp : u.isPremium with
    | false => simp [hp]
    | true => simp [hp, h]

/-- Witness for `daily_gate_empty_day_not_applicable` at a concrete
state with no tasks. -/
theorem daily_gate_empty_day_not_applicable_w :
    checkDailyTaskCompletion 0
        { user := some { isPremium := true, coins := 5, dailyRewards := [] },
          tasks := [] } =
      (.ok none,
        { user := some { isPremium := true, coins := 5, dailyRewards := [] },
          tasks := [] }) :=
  daily_gate_empty_day_not_applicable 0 _ rfl

/-- C2: on a day with a non-empty due set, any incomplete instance
blocks the gate (null result, no ledger entry, wallet unchanged), and
the gate mints only when every due instance is completed. -/
theorem daily_gate_blocked_unless_all_completed (today : Nat) (s : GateState)
    (hne : gateFilter s today ≠ []) :
    ((∃ t ∈ gateFilter s today, t.isCompleted = false) →
      checkDailyTaskCompletion today s = (.ok none, s)) ∧
    (∀ (r : RewardResult) (s2 : GateState),
      checkDailyTaskCompletion today s = (.ok (some r), s2) →
      ∀ t ∈ gateFilter s today, t.isCompleted = true) := by
  have part1 : (∃ t ∈ gateFilter s today, t.isCompleted = false) →
      checkDailyTaskCompletion today s = (.ok none, s) := by
    intro hex
    have hall : (gateFilter s today).all (fun t => t.isCompleted) = false := by
      obtain ⟨t, ht, htc⟩ := hex
      cases hallc : (gateFilter s today).all (fun t => t.isCompleted) with
      | false => rfl
      | true =>
        have h1 := List.all_eq_true.mp hallc t ht
        rw [htc] at h1
        exact absurd h1 (by simp)
    have hie : (gateFilter s today).isEmpty = false := by
      cases hgf : gateFilter s today with
      | nil => exact absurd hgf hne
      | cons a l => rfl
    unfold checkDailyTaskCompletion
    cases hu : s.user with
    | none => rfl
    | some u =>
      cases hp : u.isPremium with
      | false => simp [hp]
      | true => simp [hp, hie, hall]
  refine ⟨part1, ?_⟩
  intro r s2 heq t ht
  by_contra hnc
  have htf : t.isCompleted = false := by
    cases hc : t.isCompleted with
    | false => rfl
    | true => exact absurd hc hnc
  have hnull := part1 ⟨t, ht, htf⟩
  rw [hnull] at heq
  simp at heq

/-- Witness for `daily_gate_blocked_unless_all_completed`: one
incomplete instance among several blocks the gate at a concrete
state. -/
theorem daily_gate_blocked_unless_all_completed_w :
    checkDailyTaskCompletion 7
        { user := some { isPremium := true, coins := 3, dailyRewards := [] },
          tasks := [⟨7, true⟩, ⟨7, false⟩, ⟨7, true⟩] } =
      (.ok none,
        { user := some { isPremium := true, coins := 3, dailyRewards := [] },
          tasks := [⟨7, true⟩, ⟨7, false⟩, ⟨7, true⟩] }) :=
  (daily_gate_blocked_unless_all_completed 7 _ (by decide)).1
    ⟨⟨7, false⟩, by decide, rfl⟩

/-- C9: for a missing user or a user whose premium flag is false, the
gate returns null and changes nothing, regardless of the day's task
instances. -/
theorem daily_gate_free_user_no_reward (today : Nat) (s : GateState)
    (h : s.user = none ∨ ∃ u, s.user = some u ∧ u.isPremium = false) :
    checkDailyTaskCompletion today s = (.ok none, s) := by
  unfold checkDailyTaskCompletion
  rcases h with hnone | ⟨u, hu, hp⟩
  · rw [hnone]
  · rw [hu]
    simp [hp]

/-- Witness for `daily_gate_free_user_no_reward`: a non-premium user
with every due instance completed still gets no coin. -/
theorem daily_gate_free_user_no_reward_w :
    checkDailyTaskCompletion 2
        { user := some { isPremium := false, coins := 9, dailyRewards := [] },
          tasks := [⟨2, true⟩, ⟨2, true⟩] } =
      (.ok none,
        { user := some { isPremium := false, coins := 9, dailyRewards := [] },
          tasks := [⟨2, true⟩, ⟨2, true⟩] }) :=
  daily_gate_free_user_no_reward 2 _ (Or.inr ⟨_, rfl, rfl⟩)

/-- C5 counterexample: for a user id that resolves to no user, the gate
does NOT fail with an error — at a concrete state with no user it
returns a successful null result and the unchanged state. -/
theorem daily_gate_missing_user_no_error_cex :
    checkDailyTaskCompletion 0 { user := none, tasks := [⟨0, true⟩] } =
      (.ok none, { user := none, tasks := [⟨0, true⟩] }) := rfl

/-- C5 amended: for a user id that does not resolve to an existing
user, the gate raises no error; it returns null and leaves the state
unchanged. -/
theorem daily_gate_missing_user_returns_null (today : Nat) (s : GateState)
    (h : s.user = none) :
    checkDailyTaskCompletion today s = (.ok none, s) := by
  unfold checkDailyTaskCompletion
  rw [h]

/-- Witness for `daily_gate_missing_user_returns_null` at a concrete
state. -/
theorem daily_gate_missing_user_returns_null_w :
    checkDailyTaskCompletion 5 { user := none, tasks := [] } =
      (.ok none, { user := none, tasks := [] }) :=
  daily_gate_missing_user_returns_null 5 _ rfl

/-- Helper: once a task_completion reward is recorded for today in the
user's ledger, the gate returns null and changes nothing, whatever the
day's task set looks like. -/
lemma daily_gate_null_of_already_rewarded (today : Nat) (s : GateState)
    (u : User) (hu : s.user = some u)
    (har : alreadyRewardedFor u today = true) :
    checkDailyTaskCompletion today s = (.ok none, s) := by
  unfold checkDailyTaskCompletion
  rw [hu]
  cases hp : u.isPremium with
  | false => simp [hp]
  | true =>
    cases hie : (gateFilter s today).isEmpty with
    | true => simp [hp, hie]
    | false =>
      cases hall : (gateFilter s today).all (fun t => t.isCompleted) with
      | false => simp [hp, hie, hall]
      | true => simp [hp, hie, hall, har]

/-- C1: when the gate mints (premium user, non-empty fully completed
due set, no reward yet recorded for the day), the mint appends exactly
one task_completion ledger entry dated today, increments the balance
by exactly 1, and returns the new balance; a second sequential
invocation for the same user and day finds the recorded reward,
appends nothing, and leaves the balance unchanged. -/
theorem daily_gate_mint_once_then_idempotent (today : Nat) (s : GateState)
    (u : User) (hu : s.user = some u) (hp : u.isPremium = true)
    (hne : gateFilter s today ≠ [])
    (hall : ∀ t ∈ gateFilter s today, t.isCompleted = true)
    (hnr : alreadyRewardedFor u today = false) :
    ∃ u2 : User,
      checkDailyTaskCompletion today s =
        (.ok (some
          { rewarded := true, amount := 1, totalCoins := u.coins + 1,
            message := "모든 할일을 완료하여 코인을 받았습니다!" }),
         { s with user := some u2 }) ∧
      u2.coins = u.coins + 1 ∧
      u2.dailyRewards = u.dailyRewards ++ [⟨"task_completion", 1, today⟩] ∧
      u2.isPremium = u.isPremium ∧
      checkDailyTaskCompletion today { s with user := some u2 } =
        (.ok none, { s with user := some u2 }) := by
  have hie : (gateFilter s today).isEmpty = false := by
    cases hgf : gateFilter s today with
    | nil => exact absurd hgf hne
    | cons a l => rfl
  have hallb : (gateFilter s today).all (fun t => t.isCompleted) = true :=
    List.all_eq_true.mpr hall
  refine ⟨{ u with
            coins := u.coins + 1,
            dailyRewards :=
              u.dailyRewards ++ [⟨"task_completion", 1, today⟩] },
          ?_, rfl, rfl, rfl, ?_⟩
  · unfold checkDailyTaskCompletion
    rw [hu]
    simp [hp, hie, hallb, hnr]
  · refine daily_gate_null_of_already_rewarded today _ _ rfl ?_
    unfold alreadyRewardedFor
    simp

/-- Witness for `daily_gate_mint_once_then_idempotent` at a concrete
premium user with one completed task and an empty ledger. -/
theorem daily_gate_mint_once_then_idempotent_w :
    ∃ u2 : User,
      checkDailyTaskCompletion 0
          { user := some { isPremium := true, coins := 0, dailyRewards := [] },
            tasks := [⟨0, true⟩] } =
        (.ok (some
          { rewarded := true, amount := 1, totalCoins := 0 + 1,
            message := "모든 할일을 완료하여 코인을 받았습니다!" }),
         { user := some u2, tasks := [⟨0, true⟩] }) ∧
      u2.coins = 0 + 1 ∧
      u2.dailyRewards = [] ++ [⟨"task_completion", 1, 0⟩] ∧
      u2.isPremium = true ∧
      checkDailyTaskCompletion 0 { user := some u2, tasks := [⟨0, true⟩] } =
        (.ok none, { user := some u2, tasks := [⟨0, true⟩] }) :=
  daily_gate_mint_once_then_idempotent 0
    { user := some { isPremium := true, coins := 0, dailyRewards := [] },
      tasks := [⟨0, true⟩] }
    { isPremium := true, coins := 0, dailyRewards := [] }
    rfl rfl (by decide) (by decide) rfl

/-! ## Theorems about task creation -/

/-- C4 counterexample: creating a repeating task (recurrence type not
none) with an absent end date does NOT fail — at a concrete input the
call succeeds and the task is persisted, with a null end date and no
generated repeat instances. -/
theorem createTask_missing_end_date_no_error_cex :
    createTask (fun t => [t]) { categories := [1], tasks := [] }
        { title := "t", categoryId := 1, day := 3, isRepeating := true,
          repeatType := some "daily", repeatDays := [], repeatEndDate := none } =
      (.ok
        { title := "t", categoryId := 1, day := 3, isRepeating := true,
          repeatType := some "daily", repeatDays := [], repeatEndDate := none,
          isCompleted := false },
       { categories := [1],
         tasks := [{ title := "t", categoryId := 1, day := 3,
                     isRepeating := true, repeatType := some "daily",
                     repeatDays := [], repeatEndDate := none,
                     isCompleted := false }] }) := rfl

/-- C4 amended: creating a task with a repeating recurrence and an
absent end date raises no validation error; the task is persisted (with
a null end date) and the repeat-instance expansion step is skipped, so
exactly the one task is appended. -/
theorem createTask_missing_end_date_persists_without_expansion
    (expand : StoredTask → List StoredTask) (s : CreateState) (d : TaskData)
    (hrep : d.isRepeating = true) (hend : d.repeatEndDate = none)
    (hcat : s.categories.contains d.categoryId = true) :
    ∃ task : StoredTask,
      createTask expand s d = (.ok task, { s with tasks := s.tasks ++ [task] }) ∧
      task.repeatEndDate = none ∧ task.isRepeating = true := by
  refine ⟨{ title := d.title, categoryId := d.categoryId, day := d.day,
            isRepeating := d.isRepeating,
            repeatType := if d.isRepeating then d.repeatType else none,
            repeatDays := if d.isRepeating then d.repeatDays else [],
            repeatEndDate :=
              if d.isRepeating && d.repeatEndDate.isSome then d.repeatEndDate
              else none,
            isCompleted := false }, ?_, ?_, hrep⟩
  · unfold createTask
    simp [hcat, hend]
    simpa using hcat
  · simp [hend]

/-- Witness for `createTask_missing_end_date_persists_without_expansion`
at a concrete input. -/
theorem createTask_missing_end_date_persists_without_expansion_w :
    ∃ task : StoredTask,
      createTask (fun _ => []) { categories := [4], tasks := [] }
          { title := "w", categoryId := 4, day := 0, isRepeating := true,
            repeatType := some "weekly", repeatDays := [1, 3],
            repeatEndDate := none } =
        (.ok task,
         { categories := [4], tasks := [] ++ [task] }) ∧
      task.repeatEndDate = none ∧ task.isRepeating = true :=
  createTask_missing_end_date_persists_without_expansion
    (fun _ => []) { categories := [4], tasks := [] }
    { title := "w", categoryId := 4, day := 0, isRepeating := true,
      repeatType := some "weekly", repeatDays := [1, 3],
      repeatEndDate := none } rfl rfl (by decide)

/-! ## Theorems about task completion -/

/-- C10: completing a task whose completion flag is already set fails
with the "already completed" error and leaves the state — tasks and
growth-album records alike — unchanged; no successful completion is
possible on such a task. -/
theorem completeTask_already_completed_errors (s : CompleteState)
    (userId taskId : Nat) (ad : Option AlbumData) (task : CTask)
    (hfind : s.tasks.find? (fun t => t.id == taskId && t.userId == userId)
      = some task)
    (hdone : task.isCompleted = true) :
    completeTask s userId taskId ad = (.error "이미 완료된 Task입니다.", s) ∧
    (∀ (r : CTask × Option Album) (s2 : CompleteState),
      completeTask s userId taskId ad = (.ok r, s2) → False) := by
  have hmain : completeTask s userId taskId ad
      = (.error "이미 완료된 Task입니다.", s) := by
    unfold completeTask
    rw [hfind]
    simp [hdone]
  refine ⟨hmain, ?_⟩
  intro r s2 heq
  rw [hmain] at heq
  simp at heq

/-- Witness for `completeTask_already_completed_errors` at a concrete
state whose single task is already completed. -/
theorem completeTask_already_completed_errors_w :
    completeTask
        { tasks := [{ id := 1, userId := 2, isCompleted := true,
                      hasGrowthAlbum := true }],
          albums := [] } 2 1 (some { imageUrl := "u", memo := "m" }) =
      (.error "이미 완료된 Task입니다.",
        { tasks := [{ id := 1, userId := 2, isCompleted := true,
                      hasGrowthAlbum := true }],
          albums := [] }) :=
  (completeTask_already_completed_errors
    { tasks := [{ id := 1, userId := 2, isCompleted := true,
                  hasGrowthAlbum := true }],
      albums := [] } 2 1 (some { imageUrl := "u", memo := "m" })
    { id := 1, userId := 2, isCompleted := true, hasGrowthAlbum := true }
    rfl rfl).1

/-! ## Theorems about coin transactions -/

/-- C6: saving preserves the wallet invariant — every persisted coin
transaction has a non-negative balance-after and a non-zero amount —
and a save whose balance-after is negative fails with the
insufficient-balance error, leaving the store unchanged. -/
theorem coin_balance_nonneg_invariant (store : List CoinTransaction)
    (t : CoinTransaction)
    (hinv : ∀ x ∈ store, 0 ≤ x.balanceAfter ∧ x.amount ≠ 0) :
    (∀ x ∈ (saveCoinTransaction store t).2,
      0 ≤ x.balanceAfter ∧ x.amount ≠ 0) ∧
    (t.balanceAfter < 0 →
      saveCoinTransaction store t = (.error "잔액이 부족합니다.", store)) := by
  unfold saveCoinTransaction coinTransactionPreSave
  by_cases hb : t.balanceAfter < 0
  · simp [hb]
    exact hinv
  · by_cases ha : t.amount = 0
    · simp [hb, ha]
      exact hinv
    · simp [hb, ha]
      intro x hx
      rcases hx with hx1 | rfl
      · exact hinv x hx1
      · exact ⟨Int.not_lt.mp hb, ha⟩

/-- Witness for `coin_balance_nonneg_invariant`: a valid credit into an
empty store. -/
theorem coin_balance_nonneg_invariant_w :
    (∀ x ∈ (saveCoinTransaction []
        { amount := 1, balanceAfter := 1, status := "completed",
          description := "d" }).2,
      0 ≤ x.balanceAfter ∧ x.amount ≠ 0) ∧
    (({ amount := 1, balanceAfter := 1, status := "completed",
        description := "d" } : CoinTransaction).balanceAfter < 0 →
      saveCoinTransaction []
          { amount := 1, balanceAfter := 1, status := "completed",
            description := "d" } =
        (.error "잔액이 부족합니다.", [])) :=
  coin_balance_nonneg_invariant []
    { amount := 1, balanceAfter := 1, status := "completed",
      description := "d" }
    (by simp)

/-- C7: a coin transaction whose status is not pending (in particular
the default completed status) can be neither cancelled nor completed:
both instance methods fail with their respective errors, producing no
modified entry. -/
theorem coin_tx_not_pending_immutable (t : CoinTransaction) (reason : String)
    (h : t.status ≠ "pending") :
    t.cancel reason = .error "완료된 거래는 취소할 수 없습니다." ∧
    t.complete = .error "이미 처리된 거래입니다." := by
  have hb : (t.status != "pending") = true := by
    simp [bne_iff_ne, h]
  constructor
  · unfold CoinTransaction.cancel
    simp [hb]
  · unfold CoinTransaction.complete
    simp [hb]

/-- Witness for `coin_tx_not_pending_immutable` on a completed-status
transaction. -/
theorem coin_tx_not_pending_immutable_w :
    ({ amount := 1, balanceAfter := 1, status := "completed",
       description := "d" } : CoinTransaction).cancel "r" =
      .error "완료된 거래는 취소할 수 없습니다." ∧
    ({ amount := 1, balanceAfter := 1, status := "completed",
       description := "d" } : CoinTransaction).complete =
      .error "이미 처리된 거래입니다." :=
  coin_tx_not_pending_immutable
    { amount := 1, balanceAfter := 1, status := "completed",
      description := "d" } "r" (by decide)

/-! ## Theorems about the weekly best-day selection -/

/-- Recursive unfolding of the `bestDay` fold, used to reason about it
by structural induction. -/
def bestFrom (acc : DayBucket) : List DayBucket → DayBucket
  | [] => acc
  | c :: cs => if c.minutes > acc.minutes then bestFrom c cs else bestFrom acc cs

/-- The left fold of the reducer agrees with `bestFrom`. -/
lemma foldl_bestStep_eq_bestFrom (l : List DayBucket) :
    ∀ acc : DayBucket, l.foldl bestStep acc = bestFrom acc l := by
  induction l with
  | nil => intro acc; rfl
  | cons c cs ih =>
    intro acc
    show cs.foldl bestStep (bestStep acc c) = bestFrom acc (c :: cs)
    unfold bestStep bestFrom
    by_cases hc : c.minutes > acc.minutes
    · simp only [hc, if_pos]
      exact ih c
    · simp only [hc, if_neg, ite_false]
      exact ih acc

/-- Invariant of the fold: the result is either the accumulator (which
then dominates every element) or an element of the list that strictly
exceeds the accumulator, dominates every element, and strictly exceeds
every element before it. -/
lemma bestFrom_spec (l : List DayBucket) :
    ∀ acc : DayBucket,
      (bestFrom acc l = acc ∧ ∀ c ∈ l, c.minutes ≤ acc.minutes) ∨
      (∃ i : Fin l.length,
        bestFrom acc l = l.get i ∧
        acc.minutes < (l.get i).minutes ∧
        (∀ c ∈ l, c.minutes ≤ (l.get i).minutes) ∧
        (∀ j : Fin l.length, j.val < i.val →
          (l.get j).minutes < (l.get i).minutes)) := by
  induction l with
  | nil =>
    intro acc
    left
    exact ⟨rfl, by simp⟩
  | cons c cs ih =>
    intro acc
    by_cases hc : c.minutes > acc.minutes
    · have hfold : bestFrom acc (c :: cs) = bestFrom c cs := by
        show (if c.minutes > acc.minutes then bestFrom c cs
          else bestFrom acc cs) = bestFrom c cs
        exact if_pos hc
      rcases ih c with ⟨heq, hle⟩ | ⟨i, heq, hlt, hle, hmin⟩
      · right
        refine ⟨⟨0, by simp⟩, ?_, hc, ?_, ?_⟩
        · rw [hfold, heq]; rfl
        · intro x hx
          rcases List.mem_cons.mp hx with rfl | hx2
          · exact le_refl _
          · exact hle x hx2
        · intro j hj
          exact absurd hj (Nat.not_lt_zero _)
      · right
        refine ⟨⟨i.val + 1, Nat.succ_lt_succ i.isLt⟩, ?_, ?_, ?_, ?_⟩
        · rw [hfold, heq]
          rfl
        · exact lt_trans hc hlt
        · intro x hx
          rcases List.mem_cons.mp hx with rfl | hx2
          · exact le_of_lt hlt
          · exact hle x hx2
        · intro j hj
          rcases j with ⟨jv, hjv⟩
          cases jv with
          | zero => exact hlt
          | succ k =>
            have hk : k < i.val := Nat.lt_of_succ_lt_succ hj
            exact hmin ⟨k, Nat.lt_of_succ_lt_succ hjv⟩ hk
    · have hcle : c.minutes ≤ acc.minutes := Nat.le_of_not_lt hc
      have hfold : bestFrom acc (c :: cs) = bestFrom acc cs := by
        show (if c.minutes > acc.minutes then bestFrom c cs
          else bestFrom acc cs) = bestFrom acc cs
        exact if_neg hc
      rcases ih acc with ⟨heq, hle⟩ | ⟨i, heq, hlt, hle, hmin⟩
      · left
        refine ⟨hfold.trans heq, ?_⟩
        intro x hx
        rcases List.mem_cons.mp hx with rfl | hx2
        · exact hcle
        · exact hle x hx2
      · right
        refine ⟨⟨i.val + 1, Nat.succ_lt_succ i.isLt⟩, ?_, hlt, ?_, ?_⟩
        · rw [hfold, heq]
          rfl
        · intro x hx
          rcases List.mem_cons.mp hx with rfl | hx2
          · exact le_of_lt (lt_of_le_of_lt hcle hlt)
          · exact hle x hx2
        · intro j hj
          rcases j with ⟨jv, hjv⟩
          cases jv with
          | zero => exact lt_of_le_of_lt hcle hlt
          | succ k =>
            have hk : k < i.val := Nat.lt_of_succ_lt_succ hj
            exact hmin ⟨k, Nat.lt_of_succ_lt_succ hjv⟩ hk

/-- C8: on a non-empty sequence of daily buckets, `bestDay` selects a
bucket whose focus minutes dominate every bucket, and every strictly
earlier bucket has strictly fewer minutes — so among tied maxima the
earliest bucket wins. -/
theorem weekly_best_day_earliest_max (d : DayBucket) (ds : List DayBucket) :
    ∃ i : Fin (d :: ds).length,
      bestDay (d :: ds) = some ((d :: ds).get i) ∧
      (∀ c ∈ d :: ds, c.minutes ≤ ((d :: ds).get i).minutes) ∧
      (∀ j : Fin (d :: ds).length, j.val < i.val →
        ((d :: ds).get j).minutes < ((d :: ds).get i).minutes) := by
  have hstep : bestStep d d = d := by
    unfold bestStep
    simp
  have hbd : bestDay (d :: ds) = some (bestFrom d ds) := by
    show some ((d :: ds).foldl bestStep d) = some (bestFrom d ds)
    rw [show (d :: ds).foldl bestStep d = ds.foldl bestStep (bestStep d d)
      from rfl, hstep, foldl_bestStep_eq_bestFrom]
  rcases bestFrom_spec ds d with ⟨heq, hle⟩ | ⟨i, heq, hlt, hle, hmin⟩
  · refine ⟨⟨0, by simp⟩, ?_, ?_, ?_⟩
    · rw [hbd, heq]
      rfl
    · intro x hx
      rcases List.mem_cons.mp hx with rfl | hx2
      · exact le_refl _
      · exact hle x hx2
    · intro j hj
      exact absurd hj (Nat.not_lt_zero _)
  · refine ⟨⟨i.val + 1, Nat.succ_lt_succ i.isLt⟩, ?_, ?_, ?_⟩
    · rw [hbd, heq]
      rfl
    · intro x hx
      rcases List.mem_cons.mp hx with rfl | hx2
      · exact le_of_lt hlt
      · exact hle x hx2
    · intro j hj
      rcases j with ⟨jv, hjv⟩
      cases jv with
      | zero => exact hlt
      | succ k =>
        have hk : k < i.val := Nat.lt_of_succ_lt_succ hj
        exact hmin ⟨k, Nat.lt_of_succ_lt_succ hjv⟩ hk

end Fivlo
